import Mathlib

/-!
# Verification of the cirrus-ops ingestion-and-mining pipeline

Shallow embedding of the algorithmic core of the `cirrus_ops` Python
package: grounding-knowledge context assembly, platform-client retry
policy, transcript chunking, story deduplication, batch content
generation, content versioning, and WebVTT / Gong transcript
normalization.  Python strings are modelled as Lean `String`s
(sequences of unicode code points, matching Python `len`/slicing for
the inputs at hand), Python floats that are only ever compared are
modelled as exact rationals `ℚ`, and Python dict rows are modelled as
structures.
-/

namespace CirrusOps

/-! ## Python string primitives

`pyIsSpace` covers the ASCII whitespace class used by `str.split`,
`str.strip` and `\s` for the inputs in this code base. -/

def pyIsSpace (c : Char) : Bool :=
  c == ' ' || c == '\t' || c == '\n' || c == '\r' || c == '\x0b' || c == '\x0c'

/-- `str.split()` with no arguments: split on runs of whitespace,
discarding empty tokens. -/
def pySplitAux : List Char → List Char → List (List Char)
  | [], cur => if cur.isEmpty then [] else [cur.reverse]
  | c :: cs, cur =>
    if pyIsSpace c then
      if cur.isEmpty then pySplitAux cs [] else cur.reverse :: pySplitAux cs []
    else pySplitAux cs (c :: cur)

def pySplit (s : String) : List String :=
  (pySplitAux s.toList []).map fun l => String.mk l

/-- `sep.join(parts)`. -/
def pyJoin (sep : String) : List String → String
  | [] => ""
  | [s] => s
  | s :: rest => s ++ sep ++ pyJoin sep rest

/-- Python prefix slice `s[:k]` where `k` may be negative
(`s[:k] = s[:max(0, len(s)+k)]` for `k < 0`). -/
def pyTakeInt (s : String) (k : Int) : String :=
  String.mk (s.toList.take (if 0 ≤ k then k.toNat else ((s.length : Int) + k).toNat))

/-! ## Grounding knowledge assembly
(`packages/api/src/cirrus_ops/mining/knowledge.py`, `build_knowledge_context`) -/

structure KnowledgeDoc where
  name : String
  display_name : String
  content : String
  usage : String
  sort_order : Int
deriving Repr, DecidableEq

/-- `filtered.sort(key=lambda d: d.get("sort_order", 0))` is a stable
sort; modelled as insertion sort inserting after equal keys. -/
def insertBySortOrder (d : KnowledgeDoc) : List KnowledgeDoc → List KnowledgeDoc
  | [] => [d]
  | e :: es => if d.sort_order < e.sort_order then d :: e :: es else e :: insertBySortOrder d es

def sortBySortOrder (docs : List KnowledgeDoc) : List KnowledgeDoc :=
  docs.foldl (fun acc d => insertBySortOrder d acc) []

def knowledgeFilter (docs : List KnowledgeDoc) (usage : String) : List KnowledgeDoc :=
  docs.filter fun d => d.usage == "both" || d.usage == usage

/-- `f"### {display_name}\n"`. -/
def docHeader (d : KnowledgeDoc) : String := "### " ++ d.display_name ++ "\n"

/-- `section = f"### {display_name}\n{content}"`. -/
def docSection (d : KnowledgeDoc) : String := docHeader d ++ d.content

/-- `content[: remaining - len(f"### {display_name}\n") - 20]`. -/
def truncContent (d : KnowledgeDoc) (remaining : Nat) : String :=
  pyTakeInt d.content ((remaining : Int) - ((docHeader d).length : Int) - 20)

/-- The truncated section `f"### {display_name}\n{truncated_content}\n[... truncated]"`. -/
def truncSection (d : KnowledgeDoc) (remaining : Nat) : String :=
  docHeader d ++ truncContent d remaining ++ "\n[... truncated]"

/-- The `for doc in filtered` loop of `build_knowledge_context`:
`total` is the running `total_chars`; on overflow either a single
truncated section is emitted (when `remaining > 200`) or nothing, and
the loop `break`s either way. -/
def assembleParts (max_chars : Nat) : List KnowledgeDoc → Nat → List String
  | [], _ => []
  | d :: rest, total =>
    if total + (docSection d).length > max_chars then
      if max_chars - total > 200 then [truncSection d (max_chars - total)] else []
    else docSection d :: assembleParts max_chars rest (total + (docSection d).length)

def knowledgeParts (docs : List KnowledgeDoc) (usage : String) (max_chars : Nat) : List String :=
  assembleParts max_chars (sortBySortOrder (knowledgeFilter docs usage)) 0

def build_knowledge_context (docs : List KnowledgeDoc) (usage : String)
    (max_chars : Nat) : String :=
  let filtered := sortBySortOrder (knowledgeFilter docs usage)
  if filtered.isEmpty then ""
  else
    let parts := assembleParts max_chars filtered 0
    if parts.isEmpty then ""
    else "## Grounding Knowledge\n\n" ++ pyJoin "\n\n" parts

/-- Sum of the lengths of the assembled parts (the quantity the Python
code actually budgets). -/
def sumLens (parts : List String) : Nat := parts.foldr (fun s a => s.length + a) 0

/-- First doc of the C1 counterexample: header `"### A\n"` (6 chars) plus
90 characters of content, a 96-character section. -/
def cexD1 : KnowledgeDoc :=
  { name := "doc-a", display_name := "A"
    content := "xxxxxxxxxxxxxxxxxxxxxxxxxxxxxxxxxxxxxxxxxxxxxxxxxxxxxxxxxxxxxxxxxxxxxxxxxxxxxxxxxxxxxxxxxx"
    usage := "both", sort_order := 0 }

/-- Second doc of the C1 counterexample: a 16-character section. -/
def cexD2 : KnowledgeDoc :=
  { name := "doc-b", display_name := "B", content := "yyyyyyyyyy"
    usage := "both", sort_order := 1 }

/-- First doc of the C2 counterexample: a 100-character section. -/
def cexD3 : KnowledgeDoc :=
  { name := "doc-c", display_name := "A"
    content := "xxxxxxxxxxxxxxxxxxxxxxxxxxxxxxxxxxxxxxxxxxxxxxxxxxxxxxxxxxxxxxxxxxxxxxxxxxxxxxxxxxxxxxxxxxxxxx"
    usage := "both", sort_order := 0 }

/-- Second doc of the C2 counterexample: a 306-character section that no
longer fits when exactly 200 characters of budget remain. -/
def cexD4 : KnowledgeDoc :=
  { name := "doc-d", display_name := "B"
    content := "yyyyyyyyyyyyyyyyyyyyyyyyyyyyyyyyyyyyyyyyyyyyyyyyyyyyyyyyyyyyyyyyyyyyyyyyyyyyyyyyyyyyyyyyyyyyyyyyyyyyyyyyyyyyyyyyyyyyyyyyyyyyyyyyyyyyyyyyyyyyyyyyyyyyyyyyyyyyyyyyyyyyyyyyyyyyyyyyyyyyyyyyyyyyyyyyyyyyyyyyyyyyyyyyyyyyyyyyyyyyyyyyyyyyyyyyyyyyyyyyyyyyyyyyyyyyyyyyyyyyyyyyyyyyyyyyyyyyyyyyyyyyyyyyyyyyyyyyyyyy"
    usage := "both", sort_order := 1 }

/-! ## Platform client retry policy
(`src/cirrus_ops/gong/client.py` and `src/cirrus_ops/zoom/client.py`,
`_request` with its tenacity `retry` decorator) -/

/-- httpx `Response.raise_for_status` succeeds exactly on 2xx status codes. -/
def is2xx (status : Nat) : Bool := 200 ≤ status && status < 300

inductive HttpOutcome where
  | success (attempts : Nat)
  | hardFailure (status : Nat) (attempts : Nat)
  | retriesExhausted (attempts : Nat)
deriving Repr, DecidableEq

/-- The tenacity retry loop around `_request`: `resp n` is the HTTP
status observed on the `n`-th attempt (numbered from 1), `left` is the
number of retries still allowed by `stop_after_attempt`.  A 2xx status
succeeds; any non-2xx status other than 429 propagates immediately as a
hard failure (the retry predicate matches only 429); a 429 is retried
until the attempt ceiling, after which the call surfaces as a failure
(re-raised 429 for the Gong client, `RetryError` for the Zoom client). -/
def retryLoop (resp : Nat → Nat) (attempt : Nat) : Nat → HttpOutcome
  | 0 =>
    if is2xx (resp attempt) then .success attempt
    else if resp attempt ≠ 429 then .hardFailure (resp attempt) attempt
    else .retriesExhausted attempt
  | left + 1 =>
    if is2xx (resp attempt) then .success attempt
    else if resp attempt ≠ 429 then .hardFailure (resp attempt) attempt
    else retryLoop resp (attempt + 1) left

/-- `GongClient._request`: `retry_if_exception(_is_rate_limited)`,
`stop_after_attempt(6)`, `reraise=True`. -/
def gongRequest (resp : Nat → Nat) : HttpOutcome := retryLoop resp 1 5

/-- `ZoomClient._request`: `retry_if_result(_is_rate_limited)`,
`stop_after_attempt(6)`. -/
def zoomRequest (resp : Nat → Nat) : HttpOutcome := retryLoop resp 1 5

/-- Number of attempts consumed by an outcome. -/
def HttpOutcome.attempts : HttpOutcome → Nat
  | .success n => n
  | .hardFailure _ n => n
  | .retriesExhausted n => n

/-- C3 scenario: 429 on attempts 1–5, then 200. -/
def fiveThenSuccess : Nat → Nat := fun n => if n ≤ 5 then 429 else 200

/-- C3 scenario: 429 on every attempt. -/
def always429 : Nat → Nat := fun _ => 429

/-! ## Batch content generation
(`packages/api/src/cirrus_ops/mining/generator.py`, `batch_generate`) -/

structure GenRecord where
  content_type : String
deriving Repr, DecidableEq

inductive BatchError where
  | storyNotFound
  | invalidTypes (invalid : List String)
deriving Repr, DecidableEq

/-- `batch_generate`: `storyExists` models `db.get_story(story_id) is
not None`, `available` the profile's content-type names, and `gen` the
per-type `generate_content` call (a raised exception modelled as
`Except.error`).  The story and all requested types are validated up
front; then each type is generated independently, failures are caught
and skipped, and only the successes are returned in request order. -/
def batch_generate (storyExists : Bool) (available : List String)
    (gen : String → Except String GenRecord) (content_types : List String) :
    Except BatchError (List GenRecord) :=
  if !storyExists then .error .storyNotFound
  else
    let invalid := content_types.filter fun t => !(available.contains t)
    if !invalid.isEmpty then .error (.invalidTypes invalid)
    else .ok (content_types.filterMap fun t => (gen t).toOption)

/-- C6 scenario: generation of type `"b"` raises a hard error, every
other type succeeds. -/
def cexGen : String → Except String GenRecord :=
  fun t => if t == "b" then .error "boom" else .ok ⟨t⟩

/-! ## Content versioning
(`packages/api/src/cirrus_ops/api/routers/mining.py`, `regenerate`, and
`src/cirrus_ops/db.py`, `get_next_version`) -/

structure ContentRecord where
  id : Nat
  story_id : String
  content_type : String
  version : Nat
  parent_id : Option Nat
  status : String
deriving Repr, DecidableEq

/-- The rows of `generated_content` for one (story, content_type) pair. -/
def matchingContent (story_id content_type : String)
    (tbl : List ContentRecord) : List ContentRecord :=
  tbl.filter fun r => r.story_id == story_id && r.content_type == content_type

def maxVersion (rs : List ContentRecord) : Nat := rs.foldl (fun a r => max a r.version) 0

/-- `db.get_next_version`: the highest stored version for the pair plus
one, or 1 when no row exists. -/
def get_next_version (story_id content_type : String) (tbl : List ContentRecord) : Nat :=
  if (matchingContent story_id content_type tbl).isEmpty then 1
  else maxVersion (matchingContent story_id content_type tbl) + 1

/-- Modelled from the spec: the `version` column default applied when
`generate_content` inserts its draft row without an explicit version —
the SQL DDL for `generated_content` is not part of the repository; the
API schema (`schemas.py`) defaults `version` to 1 and §3 of the spec
fixes the original record's version at 1. -/
def insertDraft (freshId : Nat) (story_id content_type : String)
    (tbl : List ContentRecord) : List ContentRecord :=
  tbl ++ [{ id := freshId, story_id := story_id, content_type := content_type,
            version := 1, parent_id := none, status := "draft" }]

/-- `db.update_content(record["id"], {"parent_id": ..., "version": ...})`. -/
def updateVersioning (cid parent ver : Nat) (tbl : List ContentRecord) : List ContentRecord :=
  tbl.map fun r =>
    if r.id == cid then { r with parent_id := some parent, version := ver } else r

/-- `regenerate` (success path, no content-type override): look up the
original record, re-run generation (which inserts a fresh draft row),
compute the next version on the post-insert table, then update the new
record with `parent_id` and `version`. -/
def regenerate (content_id freshId : Nat) (tbl : List ContentRecord) :
    Option (List ContentRecord) :=
  match tbl.find? (fun r => r.id == content_id) with
  | none => none
  | some orig =>
      let tbl1 := insertDraft freshId orig.story_id orig.content_type tbl
      let next_version := get_next_version orig.story_id orig.content_type tbl1
      some (updateVersioning freshId content_id next_version tbl1)

/-- C7 scenario: the original content record, version 1. -/
def cr0 : ContentRecord :=
  { id := 0, story_id := "s", content_type := "linkedin_post",
    version := 1, parent_id := none, status := "draft" }

/-- C7 scenario: the record produced by the first regeneration. -/
def cr1 : ContentRecord :=
  { id := 1, story_id := "s", content_type := "linkedin_post",
    version := 2, parent_id := some 0, status := "draft" }

/-- C7 scenario: the record produced by the second regeneration. -/
def cr2 : ContentRecord :=
  { id := 2, story_id := "s", content_type := "linkedin_post",
    version := 3, parent_id := some 0, status := "draft" }

/-! ## Title similarity and story deduplication
(`packages/api/src/cirrus_ops/mining/extractor.py`,
`_titles_are_similar` and `_deduplicate_stories`) -/

/-- Length of the common prefix of two character lists. -/
def matchLen : List Char → List Char → Nat
  | a :: as, b :: bs => if a = b then matchLen as bs + 1 else 0
  | _, _ => 0

/-- Leftmost maximal candidate by block size: an earlier candidate is
kept unless a later one is strictly larger (difflib only replaces the
best block on a strict size improvement). -/
def bestAmong : List (Nat × Nat × Nat) → Nat × Nat × Nat
  | [] => (0, 0, 0)
  | c :: rest =>
    let r := bestAmong rest
    if c.2.2 < r.2.2 then r else c

/-- `difflib.SequenceMatcher.find_longest_match` with no junk (titles
are far below the 200-element autojunk threshold): among all matching
blocks of maximal size, the one starting earliest in `a`, and among
those the one starting earliest in `b`; returns `(i, j, size)`,
defaulting to `(0, 0, 0)` when nothing matches.  Computed as the
leftmost maximum over rows (candidate start `i` in `a`) of leftmost
row maxima (start `j` in `b`), which selects exactly the
smallest-`(i, j)` block of maximal size. -/
def bestMatch (a b : List Char) : Nat × Nat × Nat :=
  bestAmong ((List.range a.length).map fun i =>
    bestAmong ((List.range b.length).map fun j => (i, j, matchLen (a.drop i) (b.drop j))))

/-- Total size of all matching blocks
(`SequenceMatcher.get_matching_blocks`): recursively take the longest
match and recurse on the pieces to its left and to its right.  The fuel
`a.length + b.length + 1` strictly dominates the recursion depth (each
recursive call strictly shrinks the combined length), so it never runs
out on reachable calls. -/
def matchTotalFuel : Nat → List Char → List Char → Nat
  | 0, _, _ => 0
  | fuel + 1, a, b =>
    let m := bestMatch a b
    if m.2.2 = 0 then 0
    else
      m.2.2 + matchTotalFuel fuel (a.take m.1) (b.take m.2.1)
        + matchTotalFuel fuel (a.drop (m.1 + m.2.2)) (b.drop (m.2.1 + m.2.2))

def matchTotal (a b : List Char) : Nat := matchTotalFuel (a.length + b.length + 1) a b

/-- `_titles_are_similar`:
`SequenceMatcher(None, title_a.lower(), title_b.lower()).ratio() >= 0.8`
in exact arithmetic: `2*M/(la+lb) ≥ 4/5  ↔  5*(2*M) ≥ 4*(la+lb)` —
difflib returns ratio 1.0 when both strings are empty, consistent with
this formulation. -/
def titles_are_similar (title_a title_b : String) : Bool :=
  let a := title_a.toList.map Char.toLower
  let b := title_b.toList.map Char.toLower
  decide (4 * (a.length + b.length) ≤ 10 * matchTotal a b)

/-- A story candidate as returned by the extraction tool call;
`confidence_score` is a float only ever compared, modelled as `ℚ`. -/
structure StoryC where
  title : String
  summary : String
  story_text : String
  themes : List String
  customer_name : String
  customer_company : String
  sentiment : String
  confidence_score : ℚ
deriving Repr, DecidableEq

/-- One iteration of the `for story in stories` loop of
`_deduplicate_stories`: scan `unique` for the first similar title; on a
strictly higher confidence the existing story is removed and the new
one appended, otherwise the new story is discarded; with no similar
title the new story is appended. -/
def dedupInsert (unique : List StoryC) (story : StoryC) : List StoryC :=
  match unique.find? (fun e => titles_are_similar story.title e.title) with
  | none => unique ++ [story]
  | some e =>
      if e.confidence_score < story.confidence_score then unique.erase e ++ [story]
      else unique

def deduplicate_stories (stories : List StoryC) : List StoryC :=
  stories.foldl dedupInsert []

/-- C4 scenario: confidence 0.6 (= 3/5). -/
def storyA : StoryC :=
  { title := "Customer loves onboarding", summary := "", story_text := "",
    themes := [], customer_name := "", customer_company := "",
    sentiment := "positive", confidence_score := Rat.mk' 3 5 }

/-- C4 scenario: confidence 0.9 (= 9/10). -/
def storyB : StoryC :=
  { title := "Customer loves the onboarding", summary := "", story_text := "",
    themes := [], customer_name := "", customer_company := "",
    sentiment := "positive", confidence_score := Rat.mk' 9 10 }

/-! ## Transcript chunking and the extraction path
(`packages/api/src/cirrus_ops/mining/extractor.py`,
`_chunk_transcript` and `extract_stories`) -/

def CHUNK_WORD_LIMIT : Nat := 80000
def CHUNK_SIZE : Nat := 60000
def CHUNK_OVERLAP : Nat := 5000

/-- The `while start < len(words)` loop of `_chunk_transcript`, at the
word level: emit `words[start : start+CHUNK_SIZE]` and advance `start`
by `CHUNK_SIZE - CHUNK_OVERLAP` (= 55,000). -/
def chunkWordsFrom (ws : List String) (start : Nat) : List (List String) :=
  if _h : start < ws.length then
    ((ws.drop start).take CHUNK_SIZE)
      :: chunkWordsFrom ws (start + (CHUNK_SIZE - CHUNK_OVERLAP))
  else []
termination_by ws.length - start
decreasing_by simp only [CHUNK_SIZE, CHUNK_OVERLAP]; omega

def chunkWords (ws : List String) : List (List String) := chunkWordsFrom ws 0

/-- `_chunk_transcript`: whitespace-split, window, and re-join each
window with single spaces. -/
def chunk_transcript (transcript : String) : List String :=
  (chunkWords (pySplit transcript)).map (pyJoin " ")

/-- `transcript_row.get("word_count") or len(full_text.split())`: a
missing or zero stored word count falls back to the whitespace-token
count of the full text. -/
def extractionWordCount (stored_word_count : Option Nat) (full_text : String) : Nat :=
  match stored_word_count with
  | some n => if n = 0 then (pySplit full_text).length else n
  | none => (pySplit full_text).length

/-- The chunking decision of `extract_stories`, with the LLM tool call
abstracted as `llm` (mapping a transcript chunk to the story candidates
the tool returns): above 80,000 words the transcript is chunked, each
chunk is processed independently, the candidate lists are concatenated
in chunk order and deduplicated; otherwise the full text is processed
in a single call. -/
def extractCandidates (llm : String → List StoryC) (full_text : String)
    (stored_word_count : Option Nat) : List StoryC :=
  if CHUNK_WORD_LIMIT < extractionWordCount stored_word_count full_text then
    deduplicate_stories ((chunk_transcript full_text).flatMap llm)
  else llm full_text

/-! ## WebVTT parsing
(`packages/api/src/cirrus_ops/zoom/sync.py`, `_parse_vtt` and the
transcript upsert of `_process_batch`) -/

/-- Python `str.strip()` (whitespace at both ends). -/
def pyStrip (s : String) : String :=
  String.mk (((s.toList.dropWhile pyIsSpace).reverse.dropWhile pyIsSpace).reverse)

/-- Python `str.splitlines()` for `\n`, `\r\n` and `\r` terminators
(no trailing empty line for a trailing terminator). -/
def pySplitlinesAux : List Char → List Char → List (List Char)
  | [], cur => if cur.isEmpty then [] else [cur.reverse]
  | '\r' :: '\n' :: cs, cur => cur.reverse :: pySplitlinesAux cs []
  | '\n' :: cs, cur => cur.reverse :: pySplitlinesAux cs []
  | '\r' :: cs, cur => cur.reverse :: pySplitlinesAux cs []
  | c :: cs, cur => pySplitlinesAux cs (c :: cur)

def pySplitlines (s : String) : List String :=
  (pySplitlinesAux s.toList []).map fun l => String.mk l

/-- One `\d{2}:\d{2}:\d{2}\.\d{3}` timestamp of `_TIMESTAMP_RE`,
matched at the head of the character list; returns the matched
characters and the rest. -/
def parseTimestamp : List Char → Option (List Char × List Char)
  | c1 :: c2 :: ':' :: c3 :: c4 :: ':' :: c5 :: c6 :: '.' :: c7 :: c8 :: c9 :: rest =>
    if [c1, c2, c3, c4, c5, c6, c7, c8, c9].all Char.isDigit then
      some ([c1, c2, ':', c3, c4, ':', c5, c6, '.', c7, c8, c9], rest)
    else none
  | _ => none

/-- The full pattern
`(\d{2}:\d{2}:\d{2}\.\d{3})\s*-->\s*(\d{2}:\d{2}:\d{2}\.\d{3})` matched
at the head of the list (`\s*` is maximal-munch, equivalent here since
`-` is not whitespace), returning the two capture groups. -/
def matchTimestampRangeAt (cs : List Char) : Option (String × String) :=
  match parseTimestamp cs with
  | none => none
  | some (g1, rest) =>
    match rest.dropWhile pyIsSpace with
    | '-' :: '-' :: '>' :: rest2 =>
      match parseTimestamp (rest2.dropWhile pyIsSpace) with
      | some (g2, _) => some (String.mk g1, String.mk g2)
      | none => none
    | _ => none

/-- `_TIMESTAMP_RE.search`: try the pattern at each successive start
position, leftmost match first. -/
def searchTimestampRange : List Char → Option (String × String)
  | [] => none
  | c :: cs =>
    match matchTimestampRangeAt (c :: cs) with
    | some g => some g
    | none => searchTimestampRange cs

structure VttSegment where
  speaker : String
  text : String
  start_time : String
  end_time : String
deriving Repr, DecidableEq

/-- Python `": " in raw_text` plus `raw_text.partition(": ")` combined:
`some (before, after)` splits at the *first* occurrence of `sep`,
`none` when `sep` does not occur. -/
def pySplitFirst : List Char → List Char → Option (List Char × List Char)
  | cs, sep =>
    if sep.isPrefixOf cs then some ([], cs.drop sep.length)
    else
      match cs with
      | [] => none
      | c :: rest =>
        match pySplitFirst rest sep with
        | some (pre, post) => some (c :: pre, post)
        | none => none

/-- Build one cue's segment from the joined text lines: the text before
the first `": "` is the speaker and the remainder the spoken text, else
speaker `"Unknown"` with the full joined text. -/
def mkCueSegment (raw : String) (start_time end_time : String) : VttSegment :=
  match pySplitFirst raw.toList ": ".toList with
  | some (pre, post) =>
    { speaker := String.mk pre, text := String.mk post,
      start_time := start_time, end_time := end_time }
  | none =>
    { speaker := "Unknown", text := raw,
      start_time := start_time, end_time := end_time }

/-- Emit one cue: the pair of the `full_text_parts` entry and the
`segments` entry appended by `_parse_vtt` for a finished cue with
timestamps `st.1`/`st.2.1` and collected stripped text lines
`st.2.2`. -/
def emitCue (st : String × String × List String) : String × VttSegment :=
  let seg := mkCueSegment (pyJoin " " st.2.2) st.1 st.2.1
  (seg.text, seg)

/-- The line loop of `_parse_vtt`, processing one line per step.  The
state is `none` while scanning for a timestamp line and
`some (start, end, text_lines)` while collecting a cue's text lines.
This is the source's two nested `while` loops flattened: a line without
a timestamp is skipped; a timestamp line opens a cue; non-blank lines
feed the open cue; a blank line (or EOF) closes it — the source leaves
the blank line to the outer loop, which discards it because a blank
line never matches the timestamp pattern, so the flattened loop
discards it directly.  The header-skip phase of the source is likewise
absorbed: lines before the first timestamp line are exactly the lines
the main loop would skip. -/
def parseVttLoop : Option (String × String × List String) → List String →
    List (String × VttSegment)
  | none, [] => []
  | none, l :: ls =>
    match searchTimestampRange (pyStrip l).toList with
    | some (t1, t2) => parseVttLoop (some (t1, t2, [])) ls
    | none => parseVttLoop none ls
  | some st, [] => [emitCue st]
  | some st, l :: ls =>
    if (pyStrip l).isEmpty then emitCue st :: parseVttLoop none ls
    else parseVttLoop (some (st.1, st.2.1, st.2.2 ++ [pyStrip l])) ls

/-- `_parse_vtt`: `(full_text, segments)` with `full_text` the
newline-join of the per-cue spoken texts. -/
def parse_vtt (vtt_content : String) : String × List VttSegment :=
  let pairs := parseVttLoop none (pySplitlines vtt_content)
  (pyJoin "\n" (pairs.map (·.1)), pairs.map (·.2))

structure ZoomTranscriptRow where
  full_text : String
  segments : List VttSegment
  word_count : Nat
deriving Repr, DecidableEq

/-- The transcript row upserted by `_process_batch` step 3:
`word_count` is `len(full_text.split())`. -/
def zoomTranscriptRow (vtt_content : String) : ZoomTranscriptRow :=
  let parsed := parse_vtt vtt_content
  { full_text := parsed.1, segments := parsed.2,
    word_count := (pySplit parsed.1).length }

/-! ## Gong transcript normalization
(`src/cirrus_ops/gong/sync.py`, `_normalize_transcript`) -/

/-- One sentence of a Gong structured transcript; `start`/`stop` are
the millisecond offsets (floats only ever compared, modelled as `ℚ`),
any of which may be absent. -/
structure GongSentence where
  text : Option String
  start : Option ℚ
  stop : Option ℚ
deriving Repr, DecidableEq

structure GongSegmentRaw where
  speakerName : Option String
  speakerId : Option String
  sentences : List GongSentence
deriving Repr, DecidableEq

structure GongSegRow where
  speaker : String
  text : String
  start_time : Option ℚ
  end_time : Option ℚ
deriving Repr, DecidableEq

structure GongTranscriptRow where
  full_text : String
  segments : List GongSegRow
  word_count : Nat
deriving Repr, DecidableEq

/-- `seg.get("speakerName") or seg.get("speakerId", "Unknown")` with
Python truthiness (an empty or missing speaker name falls through). -/
def gongSpeaker (seg : GongSegmentRaw) : String :=
  match seg.speakerName with
  | some s => if s = "" then seg.speakerId.getD "Unknown" else s
  | none => seg.speakerId.getD "Unknown"

/-- The sentence fold of `_normalize_transcript`: minimum start offset
and maximum end offset over the sentences that carry one. -/
def gongTimes (sentences : List GongSentence) : Option ℚ × Option ℚ :=
  sentences.foldl
    (fun acc s =>
      let st := match s.start, acc.1 with
        | some v, none => some v
        | some v, some cur => if v < cur then some v else some cur
        | none, cur => cur
      let en := match s.stop, acc.2 with
        | some v, none => some v
        | some v, some cur => if cur < v then some v else some cur
        | none, cur => cur
      (st, en))
    (none, none)

/-- One segment of `_normalize_transcript`: the pair of the
`text_parts` entry and the `segments` entry (both carry the
space-joined sentence texts). -/
def normalizeGongSegment (seg : GongSegmentRaw) : String × GongSegRow :=
  let seg_text := pyJoin " " (seg.sentences.map fun s => s.text.getD "")
  let times := gongTimes seg.sentences
  (seg_text,
    { speaker := gongSpeaker seg, text := seg_text,
      start_time := times.1, end_time := times.2 })

/-- `_normalize_transcript`: newline-joined segment texts in original
order, `word_count = len(full_text.split())`. -/
def normalize_transcript (raw_segments : List GongSegmentRaw) : GongTranscriptRow :=
  let pairs := raw_segments.map normalizeGongSegment
  let full_text := pyJoin "\n" (pairs.map (·.1))
  { full_text := full_text, segments := pairs.map (·.2),
    word_count := (pySplit full_text).length }

end CirrusOps

namespace CirrusOps

/-! ## Lemmas: grounding knowledge budget (C1, C2) -/

theorem length_mk (l : List Char) : (String.mk l).length = l.length := rfl

theorem length_docHeader (d : KnowledgeDoc) :
    (docHeader d).length = d.display_name.length + 5 := by
  simp only [docHeader, String.length_append]
  have h4 : "### ".length = 4 := rfl
  have h1 : "\n".length = 1 := rfl
  omega

theorem pyTakeInt_length (s : String) (k : Int) (hk : 0 ≤ k) :
    (pyTakeInt s k).length = min k.toNat s.length := by
  simp only [pyTakeInt, if_pos hk, length_mk, List.length_take]
  rfl

theorem length_truncSection (d : KnowledgeDoc) (r : Nat) :
    (truncSection d r).length = (docHeader d).length + (truncContent d r).length + 16 := by
  simp only [truncSection, String.length_append]
  have h16 : "\n[... truncated]".length = 16 := rfl
  omega

theorem length_truncSection_le (d : KnowledgeDoc) (r : Nat)
    (hd : d.display_name.length ≤ 175) (hr : 200 < r) :
    (truncSection d r).length ≤ r - 4 := by
  have hh := length_docHeader d
  have hk : (0:Int) ≤ (r : Int) - ((docHeader d).length : Int) - 20 := by omega
  have := pyTakeInt_length d.content _ hk
  rw [length_truncSection]
  rw [truncContent, this]
  have htn : ((r : Int) - ((docHeader d).length : Int) - 20).toNat
      = r - (docHeader d).length - 20 := by omega
  have := min_le_left (((r : Int) - ((docHeader d).length : Int) - 20).toNat) d.content.length
  omega

theorem truncContent_pos (d : KnowledgeDoc) (r : Nat)
    (hd : d.display_name.length ≤ 175) (hr : 200 < r)
    (hbig : r < (docSection d).length) :
    0 < (truncContent d r).length := by
  have hh := length_docHeader d
  have hsec : (docSection d).length = (docHeader d).length + d.content.length := by
    simp [docSection, String.length_append]
  have hk : (0:Int) ≤ (r : Int) - ((docHeader d).length : Int) - 20 := by omega
  rw [truncContent, pyTakeInt_length d.content _ hk]
  omega

theorem assembleParts_sum_le (max_chars : Nat) (docs : List KnowledgeDoc) (total : Nat)
    (hdisp : ∀ d ∈ docs, d.display_name.length ≤ 175) (htot : total ≤ max_chars) :
    sumLens (assembleParts max_chars docs total) ≤ max_chars - total := by
  induction docs generalizing total with
  | nil => simp [assembleParts, sumLens]
  | cons d rest ih =>
    have hd : d.display_name.length ≤ 175 := hdisp d (by simp)
    by_cases hov : total + (docSection d).length > max_chars
    · by_cases hrem : max_chars - total > 200
      · have hle := length_truncSection_le d (max_chars - total) hd hrem
        simp only [assembleParts, if_pos hov, if_pos hrem, sumLens, List.foldr]
        omega
      · simp only [assembleParts, if_pos hov, if_neg hrem, sumLens, List.foldr]
        omega
    · have hfit : total + (docSection d).length ≤ max_chars := by omega
      have ihr := ih (total + (docSection d).length)
        (fun e he => hdisp e (by simp [he])) hfit
      simp only [assembleParts, if_neg hov, sumLens, List.foldr] at ihr ⊢
      omega

theorem pyJoin_length (sep : String) (parts : List String) :
    (pyJoin sep parts).length = sumLens parts + sep.length * (parts.length - 1) := by
  induction parts with
  | nil => simp [pyJoin, sumLens]
  | cons s rest ih =>
    cases rest with
    | nil => simp [pyJoin, sumLens]
    | cons t ts =>
      simp only [pyJoin, String.length_append, sumLens, List.foldr, List.length_cons] at ih ⊢
      have : (ts.length + 1 + 1) - 1 = (ts.length + 1 - 1) + 1 := by omega
      rw [this, Nat.mul_succ]
      omega

theorem mem_insertBySortOrder {x d : KnowledgeDoc} {l : List KnowledgeDoc} :
    x ∈ insertBySortOrder d l → x = d ∨ x ∈ l := by
  induction l with
  | nil => simp [insertBySortOrder]
  | cons e es ih =>
    simp only [insertBySortOrder]
    by_cases h : d.sort_order < e.sort_order
    · simp only [if_pos h, List.mem_cons]
      tauto
    · simp only [if_neg h, List.mem_cons]
      intro hx
      rcases hx with hx | hx
      · tauto
      · rcases ih hx with hx | hx <;> tauto

theorem mem_sortBySortOrder {x : KnowledgeDoc} {l : List KnowledgeDoc} :
    x ∈ sortBySortOrder l → x ∈ l := by
  suffices h : ∀ (l acc : List KnowledgeDoc),
      x ∈ l.foldl (fun acc d => insertBySortOrder d acc) acc → x ∈ acc ∨ x ∈ l by
    intro hx
    rcases h l [] hx with h | h
    · simp at h
    · exact h
  intro l
  induction l with
  | nil => simp
  | cons d ds ih =>
    intro acc hx
    rcases ih (insertBySortOrder d acc) hx with h | h
    · rcases mem_insertBySortOrder h with h | h <;> simp [h]
    · simp [h]

/-- C1 (amended): the character budget of `build_knowledge_context`
bounds the summed per-doc sections, but the fixed
`"## Grounding Knowledge\n\n"` heading (24 chars) and the 2-char
blank-line separators between sections are not counted against it, so
the returned context string is only guaranteed to be at most
`max_chars + 22 + 2·(number of included sections)` characters — not
`max_chars`.  (Display names are assumed at most 175 characters so the
truncation slice index is nonnegative.) -/
theorem c1_knowledge_budget (docs : List KnowledgeDoc) (usage : String) (max_chars : Nat)
    (hdisp : ∀ d ∈ docs, d.display_name.length ≤ 175) :
    sumLens (knowledgeParts docs usage max_chars) ≤ max_chars ∧
    (build_knowledge_context docs usage max_chars).length
      ≤ max_chars + 22 + 2 * (knowledgeParts docs usage max_chars).length := by
  have hsorted : ∀ d ∈ sortBySortOrder (knowledgeFilter docs usage),
      d.display_name.length ≤ 175 := by
    intro d hd
    exact hdisp d (List.mem_filter.mp (mem_sortBySortOrder hd)).1
  have h1 : sumLens (knowledgeParts docs usage max_chars) ≤ max_chars := by
    have := assembleParts_sum_le max_chars
      (sortBySortOrder (knowledgeFilter docs usage)) 0 hsorted (Nat.zero_le _)
    simpa [knowledgeParts] using this
  refine ⟨h1, ?_⟩
  unfold build_knowledge_context
  by_cases hfe : (sortBySortOrder (knowledgeFilter docs usage)).isEmpty
  · simp [hfe]
  · simp only [hfe, Bool.false_eq_true, if_false]
    by_cases hpe : (assembleParts max_chars (sortBySortOrder (knowledgeFilter docs usage)) 0).isEmpty
    · simp [hpe]
    · simp only [hpe, Bool.false_eq_true, if_false, String.length_append]
      have hhd : ("## Grounding Knowledge\n\n").length = 24 := rfl
      have hsep : ("\n\n").length = 2 := rfl
      have hj := pyJoin_length "\n\n"
        (assembleParts max_chars (sortBySortOrder (knowledgeFilter docs usage)) 0)
      rw [hsep] at hj
      have hne : (assembleParts max_chars (sortBySortOrder (knowledgeFilter docs usage)) 0) ≠ [] := by
        intro h
        rw [h] at hpe
        simp at hpe
      have hlen : 0 < (assembleParts max_chars (sortBySortOrder (knowledgeFilter docs usage)) 0).length :=
        List.length_pos.mpr hne
      simp only [knowledgeParts] at h1 ⊢
      omega

/-- Witness for C1 at a concrete input. -/
theorem c1_knowledge_budget_witness :
    (∀ d ∈ [cexD1, cexD2], d.display_name.length ≤ 175) ∧
    (sumLens (knowledgeParts [cexD1, cexD2] "extraction" 100) ≤ 100 ∧
      (build_knowledge_context [cexD1, cexD2] "extraction" 100).length
        ≤ 100 + 22 + 2 * (knowledgeParts [cexD1, cexD2] "extraction" 100).length) :=
  ⟨by decide, c1_knowledge_budget [cexD1, cexD2] "extraction" 100 (by decide)⟩

/-- C1 counterexample: with `max_chars = 100` and two docs whose
combined rendered size exceeds 100, the second doc is omitted, yet the
returned context string is 120 characters long — the budget check does
not count the `"## Grounding Knowledge\n\n"` heading, so the result
exceeds the requested budget. -/
theorem c1_counterexample :
    100 < (docSection cexD1).length + (docSection cexD2).length ∧
    ¬ (build_knowledge_context [cexD1, cexD2] "extraction" 100).length ≤ 100 := by
  decide

/-- C2 (amended): when appending the next qualifying doc would exceed
the remaining budget, the doc is truncated and terminated with the
`"\n[... truncated]"` marker if and only if *strictly more than* 200
characters of budget remain (the code tests `remaining > 200`, so at
exactly 200 remaining the doc is dropped); otherwise the doc is dropped
and assembly stops.  When display names are at most 175 characters the
emitted truncated block always has nonempty content and fits the
remaining budget with 4 characters to spare. -/
theorem c2_truncation_rule (max_chars total : Nat) (d : KnowledgeDoc)
    (rest : List KnowledgeDoc)
    (hov : max_chars < total + (docSection d).length) :
    (200 < max_chars - total →
      assembleParts max_chars (d :: rest) total
          = [docHeader d ++ truncContent d (max_chars - total) ++ "\n[... truncated]"]
        ∧ (d.display_name.length ≤ 175 →
            0 < (truncContent d (max_chars - total)).length
            ∧ (truncSection d (max_chars - total)).length ≤ max_chars - total - 4)) ∧
    (max_chars - total ≤ 200 → assembleParts max_chars (d :: rest) total = []) := by
  constructor
  · intro hrem
    refine ⟨?_, ?_⟩
    · simp only [assembleParts, if_pos (show total + (docSection d).length > max_chars by omega),
        if_pos hrem]
      rfl
    · intro hd
      refine ⟨truncContent_pos d _ hd hrem (by omega), ?_⟩
      have := length_truncSection_le d (max_chars - total) hd hrem
      omega
  · intro hrem
    simp only [assembleParts, if_pos (show total + (docSection d).length > max_chars by omega),
      if_neg (show ¬ (max_chars - total > 200) by omega)]

set_option maxRecDepth 8000 in
/-- Witness for C2 at a concrete input. -/
theorem c2_truncation_rule_witness :
    (300 < 0 + (docSection cexD4).length) ∧
    ((200 < 300 - 0 →
      assembleParts 300 [cexD4] 0
          = [docHeader cexD4 ++ truncContent cexD4 (300 - 0) ++ "\n[... truncated]"]
        ∧ (cexD4.display_name.length ≤ 175 →
            0 < (truncContent cexD4 (300 - 0)).length
            ∧ (truncSection cexD4 (300 - 0)).length ≤ 300 - 0 - 4)) ∧
    (300 - 0 ≤ 200 → assembleParts 300 [cexD4] 0 = [])) :=
  ⟨by decide, c2_truncation_rule 300 0 cexD4 [] (by decide)⟩

set_option maxRecDepth 8000 in
/-- C2 counterexample: processing the second doc with *exactly* 200
characters of budget remaining, the code drops the doc entirely
(`remaining > 200` is false), while the claim demands a truncated block
whenever at least 200 characters remain. -/
theorem c2_counterexample :
    300 - (docSection cexD3).length = 200 ∧
    300 < (docSection cexD3).length + (docSection cexD4).length ∧
    knowledgeParts [cexD3, cexD4] "extraction" 300 = [docSection cexD3] := by
  decide

/-! ## Lemmas: retry policy (C3) -/

theorem retryLoop_attempts_le (resp : Nat → Nat) (left : Nat) :
    ∀ attempt, (retryLoop resp attempt left).attempts ≤ attempt + left := by
  induction left with
  | zero =>
    intro a
    simp only [retryLoop]
    split_ifs <;> simp [HttpOutcome.attempts]
  | succ l ih =>
    intro a
    simp only [retryLoop]
    split_ifs
    · simp [HttpOutcome.attempts]
    · simp [HttpOutcome.attempts]
    · have := ih (a + 1)
      omega

theorem retryLoop_all429 (resp : Nat → Nat) (left : Nat) :
    ∀ attempt, (∀ n, attempt ≤ n → n ≤ attempt + left → resp n = 429) →
      retryLoop resp attempt left = .retriesExhausted (attempt + left) := by
  induction left with
  | zero =>
    intro a h
    have ha : resp a = 429 := h a le_rfl (by omega)
    simp [retryLoop, ha, is2xx]
  | succ l ih =>
    intro a h
    have ha : resp a = 429 := h a le_rfl (by omega)
    have hrec := ih (a + 1) (fun n h1 h2 => h n (by omega) (by omega))
    have harr : a + 1 + l = a + (l + 1) := by omega
    rw [harr] at hrec
    simp only [retryLoop, ha]
    norm_num [is2xx]
    exact hrec

theorem retryLoop_success_after_429 (resp : Nat → Nat) (left : Nat) :
    ∀ attempt, (∀ n, attempt ≤ n → n < attempt + left → resp n = 429) →
      is2xx (resp (attempt + left)) = true →
      retryLoop resp attempt left = .success (attempt + left) := by
  induction left with
  | zero =>
    intro a _ hok
    simp only [Nat.add_zero] at hok
    simp [retryLoop, hok]
  | succ l ih =>
    intro a h hok
    have ha : resp a = 429 := h a le_rfl (by omega)
    have hrec := ih (a + 1) (fun n h1 h2 => h n (by omega) (by omega))
      (by rw [show a + 1 + l = a + (l + 1) by omega]; exact hok)
    have harr : a + 1 + l = a + (l + 1) := by omega
    rw [harr] at hrec
    simp only [retryLoop, ha]
    norm_num [is2xx]
    exact hrec

/-- C3: every platform API call retries only on HTTP 429, with a
ceiling of 6 total attempts; any other non-2xx response propagates
immediately as a hard failure on the first attempt; a call answering
429 five times and then 200 succeeds on exactly the 6th attempt; a call
answering 429 on all 6 attempts surfaces as a failure with the retry
budget exhausted.  This holds for both the Gong and the Zoom client. -/
theorem c3_retry_policy :
    (∀ resp : Nat → Nat, is2xx (resp 1) = false → resp 1 ≠ 429 →
      gongRequest resp = .hardFailure (resp 1) 1 ∧
      zoomRequest resp = .hardFailure (resp 1) 1) ∧
    (∀ resp : Nat → Nat,
      (gongRequest resp).attempts ≤ 6 ∧ (zoomRequest resp).attempts ≤ 6) ∧
    (gongRequest fiveThenSuccess = .success 6 ∧
      zoomRequest fiveThenSuccess = .success 6) ∧
    (gongRequest always429 = .retriesExhausted 6 ∧
      zoomRequest always429 = .retriesExhausted 6) ∧
    (∀ resp : Nat → Nat, (∀ n, 1 ≤ n → n ≤ 5 → resp n = 429) →
      is2xx (resp 6) = true →
      gongRequest resp = .success 6 ∧ zoomRequest resp = .success 6) ∧
    (∀ resp : Nat → Nat, (∀ n, 1 ≤ n → n ≤ 6 → resp n = 429) →
      gongRequest resp = .retriesExhausted 6 ∧
      zoomRequest resp = .retriesExhausted 6) := by
  refine ⟨?_, ?_, by decide, by decide, ?_, ?_⟩
  · intro resp hbad hne
    constructor <;> simp [gongRequest, zoomRequest, retryLoop, hbad, hne]
  · intro resp
    exact ⟨retryLoop_attempts_le resp 5 1, retryLoop_attempts_le resp 5 1⟩
  · intro resp h hok
    have := retryLoop_success_after_429 resp 5 1
      (fun n h1 h2 => h n h1 (by omega)) (by simpa using hok)
    exact ⟨this, this⟩
  · intro resp h
    have := retryLoop_all429 resp 5 1 (fun n h1 h2 => h n h1 (by omega))
    exact ⟨this, this⟩

/-- Witness for C3 at a concrete input: a 500 response fails hard with
no retry on the first attempt, for both clients. -/
theorem c3_retry_policy_witness :
    is2xx 500 = false ∧ (500 : Nat) ≠ 429 ∧
    gongRequest (fun _ => 500) = .hardFailure 500 1 ∧
    zoomRequest (fun _ => 500) = .hardFailure 500 1 := by
  refine ⟨by decide, by decide, ?_, ?_⟩
  · exact (c3_retry_policy.1 (fun _ => 500) (by decide) (by decide)).1
  · exact (c3_retry_policy.1 (fun _ => 500) (by decide) (by decide)).2

/-! ## Lemmas: batch generation (C6) -/

/-- C6: `batch_generate` validates the story and the full requested
type list before generating anything, failing fast with the complete
invalid-type list; with everything valid it generates each type
independently, skips per-type failures, and returns exactly the
successes in request order — so 3 requested types with a hard failure
on the 2nd yield exactly the 2 successful records, distinguishable
from a fully successful run of 3. -/
theorem c6_batch_generate_partial_failure (available : List String)
    (gen : String → Except String GenRecord) (types : List String) :
    (∀ g : String → Except String GenRecord,
      batch_generate false available g types = .error .storyNotFound) ∧
    ((types.filter fun t => !(available.contains t)) ≠ [] →
      batch_generate true available gen types
        = .error (.invalidTypes (types.filter fun t => !(available.contains t)))) ∧
    ((∀ t ∈ types, available.contains t) →
      batch_generate true available gen types
        = .ok (types.filterMap fun t => (gen t).toOption)) ∧
    (batch_generate true ["a", "b", "c"] cexGen ["a", "b", "c"]
        = .ok [⟨"a"⟩, ⟨"c"⟩] ∧
      batch_generate true ["a", "b", "c"] (fun t => .ok ⟨t⟩) ["a", "b", "c"]
        = .ok [⟨"a"⟩, ⟨"b"⟩, ⟨"c"⟩]) := by
  refine ⟨?_, ?_, ?_, rfl, rfl⟩
  · intro g
    simp [batch_generate]
  · intro h
    have hie : (types.filter fun t => !(available.contains t)).isEmpty = false := by
      cases hfe : (types.filter fun t => !(available.contains t)) with
      | nil => exact absurd hfe h
      | cons a l => simp [hfe]
    simp only [batch_generate, Bool.not_true, Bool.false_eq_true, if_false]
    rw [hie]
    simp
  · intro h
    have hnil : (types.filter fun t => !(available.contains t)) = [] := by
      rw [List.filter_eq_nil_iff]
      intro t ht
      simp only [h t ht, Bool.not_true, Bool.false_eq_true, not_false_eq_true]
    simp only [batch_generate, Bool.not_true, Bool.false_eq_true, if_false]
    rw [hnil]
    simp

/-- Witness for C6 at a concrete input. -/
theorem c6_batch_generate_witness :
    (∀ t ∈ ["a"], (["a"] : List String).contains t) ∧
    batch_generate true ["a"] (fun t => .ok ⟨t⟩) ["a"] = .ok [⟨"a"⟩] :=
  ⟨by decide,
    (c6_batch_generate_partial_failure ["a"] (fun t => .ok ⟨t⟩) ["a"]).2.2.1 (by decide)⟩

/-! ## Lemmas: content versioning (C7) -/

theorem le_foldl_maxVersion (l : List ContentRecord) :
    ∀ a : Nat, a ≤ l.foldl (fun a r => max a r.version) a := by
  induction l with
  | nil => intro a; simp
  | cons e es ih =>
    intro a
    calc a ≤ max a e.version := le_max_left _ _
    _ ≤ es.foldl (fun a r => max a r.version) (max a e.version) := ih _

theorem version_le_maxVersion {r : ContentRecord} {l : List ContentRecord}
    (h : r ∈ l) : r.version ≤ maxVersion l := by
  unfold maxVersion
  suffices hgen : ∀ a : Nat, r.version ≤ l.foldl (fun a r => max a r.version) a by
    exact hgen 0
  induction l with
  | nil => simp at h
  | cons e es ih =>
    intro a
    rcases List.mem_cons.mp h with hr | hr
    · subst hr
      calc r.version ≤ max a r.version := le_max_right _ _
      _ ≤ es.foldl (fun a r => max a r.version) (max a r.version) := le_foldl_maxVersion es _
    · exact ih hr _

theorem maxVersion_append_single (l : List ContentRecord) (r : ContentRecord) :
    maxVersion (l ++ [r]) = max (maxVersion l) r.version := by
  simp [maxVersion, List.foldl_append]

/-- C7: `regenerate` inserts the regenerated draft, then assigns it a
`parent_id` pointing at the record being regenerated and a version one
above the maximum existing version for the (story, content_type) pair,
never reusing a version number; regenerating a version-1 original twice
yields versions 2 and 3. -/
theorem c7_regenerate_versioning (tbl : List ContentRecord)
    (content_id freshId : Nat) (orig : ContentRecord)
    (hfind : tbl.find? (fun r => r.id == content_id) = some orig)
    (hfresh : ∀ r ∈ tbl, r.id ≠ freshId)
    (hpos : 1 ≤ maxVersion (matchingContent orig.story_id orig.content_type tbl)) :
    (regenerate content_id freshId tbl
      = some (tbl ++
          [{ id := freshId, story_id := orig.story_id,
             content_type := orig.content_type,
             version := maxVersion (matchingContent orig.story_id orig.content_type tbl) + 1,
             parent_id := some content_id, status := "draft" }])
      ∧ ∀ r ∈ matchingContent orig.story_id orig.content_type tbl,
          r.version < maxVersion (matchingContent orig.story_id orig.content_type tbl) + 1) ∧
    (regenerate 0 1 [cr0] = some [cr0, cr1] ∧
      regenerate 0 2 [cr0, cr1] = some [cr0, cr1, cr2]) := by
  refine ⟨⟨?_, ?_⟩, by decide, by decide⟩
  · set draft : ContentRecord :=
      { id := freshId, story_id := orig.story_id, content_type := orig.content_type,
        version := 1, parent_id := none, status := "draft" } with hdraft
    have hmatch : matchingContent orig.story_id orig.content_type
        (insertDraft freshId orig.story_id orig.content_type tbl)
        = matchingContent orig.story_id orig.content_type tbl ++ [draft] := by
      simp [insertDraft, matchingContent, List.filter_append, hdraft]
    have hmax : maxVersion (matchingContent orig.story_id orig.content_type
        (insertDraft freshId orig.story_id orig.content_type tbl))
        = maxVersion (matchingContent orig.story_id orig.content_type tbl) := by
      rw [hmatch, maxVersion_append_single]
      simp [hdraft]
      omega
    have hne : (matchingContent orig.story_id orig.content_type
        (insertDraft freshId orig.story_id orig.content_type tbl)).isEmpty = false := by
      rw [hmatch]
      simp
    have hnext : get_next_version orig.story_id orig.content_type
        (insertDraft freshId orig.story_id orig.content_type tbl)
        = maxVersion (matchingContent orig.story_id orig.content_type tbl) + 1 := by
      simp [get_next_version, hne, hmax]
    have hupd : updateVersioning freshId content_id
        (maxVersion (matchingContent orig.story_id orig.content_type tbl) + 1)
        (insertDraft freshId orig.story_id orig.content_type tbl)
        = tbl ++
          [{ id := freshId, story_id := orig.story_id,
             content_type := orig.content_type,
             version := maxVersion (matchingContent orig.story_id orig.content_type tbl) + 1,
             parent_id := some content_id, status := "draft" }] := by
      unfold updateVersioning insertDraft
      rw [List.map_append]
      congr 1
      · conv_rhs => rw [show tbl = tbl.map id from (List.map_id tbl).symm]
        apply List.map_congr_left
        intro r hr
        have : (r.id == freshId) = false := beq_eq_false_iff_ne.mpr (hfresh r hr)
        simp [this]
      · simp
    simp only [regenerate, hfind, hnext, hupd]
  · intro r hr
    have := version_le_maxVersion hr
    omega

/-! ## Lemmas: transcript chunking (C5) -/

theorem chunkWordsFrom_getElem? (ws : List String) :
    ∀ (k start : Nat), (chunkWordsFrom ws start)[k]? =
      if start + 55000 * k < ws.length
      then some ((ws.drop (start + 55000 * k)).take 60000) else none := by
  intro k
  induction k with
  | zero =>
    intro start
    rw [chunkWordsFrom]
    by_cases h : start < ws.length
    · rw [dif_pos h, List.getElem?_cons_zero,
        if_pos (show start + 55000 * 0 < ws.length by omega)]
      norm_num [CHUNK_SIZE]
    · rw [dif_neg h, if_neg (show ¬ start + 55000 * 0 < ws.length by omega)]
      rfl
  | succ k ih =>
    intro start
    rw [chunkWordsFrom]
    by_cases h : start < ws.length
    · rw [dif_pos h, List.getElem?_cons_succ,
        ih (start + (CHUNK_SIZE - CHUNK_OVERLAP))]
      have harith : start + (CHUNK_SIZE - CHUNK_OVERLAP) + 55000 * k
          = start + 55000 * (k + 1) := by
        simp only [CHUNK_SIZE, CHUNK_OVERLAP]
        omega
      rw [harith]
    · rw [dif_neg h, if_neg (show ¬ start + 55000 * (k + 1) < ws.length by omega)]
      rfl

theorem chunkWords_getElem? (ws : List String) (k : Nat) :
    (chunkWords ws)[k]? =
      if 55000 * k < ws.length
      then some ((ws.drop (55000 * k)).take 60000) else none := by
  have := chunkWordsFrom_getElem? ws k 0
  simpa [chunkWords] using this

/-- C5 (amended): `extract_stories` processes the full transcript in a
single LLM call when the word count is at most 80,000; above that it
splits the whitespace-tokenized word sequence, preserving order, into
windows `words[55000*k : 55000*k + 60000]`, every word appears in some
window (word `i` sits in window `i / 55000` at offset `i % 55000`),
consecutive windows share exactly 5,000 words *whenever the earlier
window is a full 60,000-word window* (the final window may be shorter
and then shares fewer), and all returned candidates are concatenated in
chunk order (and then deduplicated). -/
theorem c5_chunking :
    (∀ (llm : String → List StoryC) (full_text : String) (swc : Option Nat),
      extractionWordCount swc full_text ≤ CHUNK_WORD_LIMIT →
      extractCandidates llm full_text swc = llm full_text) ∧
    (∀ (llm : String → List StoryC) (full_text : String) (swc : Option Nat),
      CHUNK_WORD_LIMIT < extractionWordCount swc full_text →
      extractCandidates llm full_text swc
        = deduplicate_stories
            (((chunkWords (pySplit full_text)).map (pyJoin " ")).flatMap llm)) ∧
    (∀ (ws : List String) (k : Nat),
      (chunkWords ws)[k]? =
        if 55000 * k < ws.length
        then some ((ws.drop (55000 * k)).take 60000) else none) ∧
    (∀ (ws : List String) (i : Nat), i < ws.length →
      ((chunkWords ws)[i / 55000]?.bind fun w => w[i % 55000]?) = ws[i]?) ∧
    (∀ (ws : List String) (k : Nat), 55000 * k + 60000 ≤ ws.length →
      ∃ c c', (chunkWords ws)[k]? = some c ∧ (chunkWords ws)[k + 1]? = some c'
        ∧ c.drop 55000 = c'.take 5000 ∧ (c.drop 55000).length = 5000) := by
  refine ⟨?_, ?_, chunkWords_getElem?, ?_, ?_⟩
  · intro llm full_text swc h
    simp only [extractCandidates, if_neg (not_lt.mpr h)]
  · intro llm full_text swc h
    simp only [extractCandidates, chunk_transcript, if_pos h]
  · intro ws i hi
    rw [chunkWords_getElem?, if_pos (show 55000 * (i / 55000) < ws.length by omega)]
    dsimp only [Option.bind]
    rw [List.getElem?_take, if_pos (show i % 55000 < 60000 by omega),
      List.getElem?_drop]
    congr 1
    omega
  · intro ws k h
    have hk : 55000 * k < ws.length := by omega
    have hk1 : 55000 * (k + 1) < ws.length := by omega
    refine ⟨(ws.drop (55000 * k)).take 60000, (ws.drop (55000 * (k + 1))).take 60000,
      by rw [chunkWords_getElem?, if_pos hk],
      by rw [chunkWords_getElem?, if_pos hk1], ?_, ?_⟩
    · have harith : 55000 * k + 55000 = 55000 * (k + 1) := by ring
      simp only [List.drop_take, List.drop_drop, List.take_take, harith]
      norm_num
    · simp only [List.drop_take, List.drop_drop, List.length_take, List.length_drop]
      omega

/-- Witness for C5 at a concrete input: an 11-character, 2-word
transcript goes through the single-call path. -/
theorem c5_chunking_witness :
    extractionWordCount none "hello world" ≤ CHUNK_WORD_LIMIT ∧
    extractCandidates (fun _ => []) "hello world" none = [] :=
  ⟨by decide, c5_chunking.1 (fun _ => []) "hello world" none (by decide)⟩

/-- C5 counterexample: a 110,001-word transcript (> 80,000, so the
chunking path runs) produces three windows of 60,000, 55,001 and 1
words; the middle window is not a 60,000-word window and the final
window shares exactly *one* word with its predecessor (its 55,000-word
suffix is the single-word final window), not 5,000. -/
theorem c5_counterexample :
    80000 < (List.replicate 110001 "w").length ∧
    (chunkWords (List.replicate 110001 "w"))[1]? = some (List.replicate 55001 "w") ∧
    (chunkWords (List.replicate 110001 "w"))[2]? = some (List.replicate 1 "w") ∧
    (chunkWords (List.replicate 110001 "w"))[3]? = none ∧
    (List.replicate 55001 "w").length ≠ 60000 ∧
    (List.replicate 55001 "w").drop 55000 = List.replicate 1 "w" ∧
    ((List.replicate 55001 "w").drop 55000).length ≠ 5000 := by
  refine ⟨?_, ?_, ?_, ?_, ?_, ?_, ?_⟩
  · rw [List.length_replicate]
    omega
  · rw [chunkWords_getElem?, if_pos (by rw [List.length_replicate]; omega)]
    rw [List.drop_replicate, List.take_replicate]
    have h1 : min 60000 (110001 - 55000 * 1) = 55001 := by omega
    rw [h1]
  · rw [chunkWords_getElem?, if_pos (by rw [List.length_replicate]; omega)]
    rw [List.drop_replicate, List.take_replicate]
    have h1 : min 60000 (110001 - 55000 * 2) = 1 := by omega
    rw [h1]
  · rw [chunkWords_getElem?, if_neg (by rw [List.length_replicate]; omega)]
  · rw [List.length_replicate]
    omega
  · rw [List.drop_replicate]
  · rw [List.drop_replicate, List.length_replicate]
    omega

/-! ## Lemmas: story deduplication (C4, C10) -/

theorem dedupInsert_mem {x : StoryC} (unique : List StoryC) (s : StoryC) :
    x ∈ dedupInsert unique s → x ∈ unique ∨ x = s := by
  unfold dedupInsert
  cases hf : unique.find? (fun e => titles_are_similar s.title e.title) with
  | none =>
    intro hx
    rcases List.mem_append.mp hx with h | h
    · exact Or.inl h
    · simp at h
      exact Or.inr h
  | some e =>
    dsimp only
    split_ifs
    · intro hx
      rcases List.mem_append.mp hx with h | h
      · exact Or.inl (List.erase_subset _ _ h)
      · simp at h
        exact Or.inr h
    · intro hx
      exact Or.inl hx

theorem dedupInsert_length (unique : List StoryC) (s : StoryC) :
    (dedupInsert unique s).length ≤ unique.length + 1 := by
  unfold dedupInsert
  cases hf : unique.find? (fun e => titles_are_similar s.title e.title) with
  | none => simp
  | some e =>
    have he : e ∈ unique := List.mem_of_find?_eq_some hf
    have hel := List.length_erase_of_mem he
    have hpos : 0 < unique.length := List.length_pos.mpr (List.ne_nil_of_mem he)
    dsimp only
    split_ifs
    · simp only [List.length_append, List.length_cons, List.length_nil]
      omega
    · omega

theorem foldl_dedup_mem {x : StoryC} :
    ∀ (l acc : List StoryC), x ∈ l.foldl dedupInsert acc → x ∈ acc ∨ x ∈ l := by
  intro l
  induction l with
  | nil =>
    intro acc h
    exact Or.inl h
  | cons s rest ih =>
    intro acc h
    rcases ih (dedupInsert acc s) h with h | h
    · rcases dedupInsert_mem acc s h with h | h
      · exact Or.inl h
      · right
        simp [h]
    · right
      simp [h]

theorem foldl_dedup_length :
    ∀ (l acc : List StoryC), (l.foldl dedupInsert acc).length ≤ acc.length + l.length := by
  intro l
  induction l with
  | nil => intro acc; simp
  | cons s rest ih =>
    intro acc
    have h1 := ih (dedupInsert acc s)
    have h2 := dedupInsert_length acc s
    simp only [List.foldl, List.length_cons]
    omega

set_option maxRecDepth 100000 in
/-- C4: two candidate stories whose titles the code's
SequenceMatcher-based check deems similar (case-insensitive ratio
≥ 0.8) collapse to a single surviving candidate — the one with the
strictly higher confidence wins, and on equal confidence the
first-seen candidate is kept; in particular "Customer loves
onboarding" (0.6) and "Customer loves the onboarding" (0.9) collapse
to the 0.9 candidate. -/
theorem c4_dedup_similar_pair (a b : StoryC)
    (h : titles_are_similar b.title a.title = true) :
    (deduplicate_stories [a, b]
      = if a.confidence_score < b.confidence_score then [b] else [a]) ∧
    (titles_are_similar storyB.title storyA.title = true ∧
      deduplicate_stories [storyA, storyB] = [storyB]) := by
  refine ⟨?_, by decide, by decide⟩
  show dedupInsert (dedupInsert [] a) b = _
  have h1 : dedupInsert [] a = [a] := rfl
  have h2 : dedupInsert [a] b
      = if a.confidence_score < b.confidence_score then [a].erase a ++ [b] else [a] := by
    unfold dedupInsert
    rw [@List.find?_cons_of_pos _ (fun e => titles_are_similar b.title e.title) a [] h]
  rw [h1, h2]
  simp [List.erase_cons_head]

set_option maxRecDepth 100000 in
/-- Witness for C4 at the concrete input from the spec. -/
theorem c4_dedup_similar_pair_witness :
    titles_are_similar storyB.title storyA.title = true ∧
    deduplicate_stories [storyA, storyB]
      = if storyA.confidence_score < storyB.confidence_score then [storyB]
        else [storyA] :=
  ⟨by decide, (c4_dedup_similar_pair storyA storyB (by decide)).1⟩

/-- C10: deduplication never invents or edits a story — every output
element is an element of the input list, and the output is no longer
than the input. -/
theorem c10_dedup_no_invention (stories : List StoryC) :
    (∀ x ∈ deduplicate_stories stories, x ∈ stories) ∧
    (deduplicate_stories stories).length ≤ stories.length := by
  constructor
  · intro x hx
    rcases foldl_dedup_mem stories [] hx with h | h
    · simp at h
    · exact h
  · have := foldl_dedup_length stories []
    simpa [deduplicate_stories] using this

/-- Witness for C10 at a concrete input. -/
theorem c10_dedup_no_invention_witness :
    storyA ∈ deduplicate_stories [storyA] ∧ storyA ∈ [storyA] ∧
    (deduplicate_stories [storyA]).length ≤ ([storyA] : List StoryC).length :=
  ⟨by decide, (c10_dedup_no_invention [storyA]).1 storyA (by decide),
    (c10_dedup_no_invention [storyA]).2⟩

/-! ## Lemmas: VTT parsing and normalization (C8, C9) -/

theorem pySplitFirst_eq_some {sep : List Char} :
    ∀ {cs pre post : List Char}, pySplitFirst cs sep = some (pre, post) →
      cs = pre ++ (sep ++ post)
      ∧ ∀ j < pre.length, sep.isPrefixOf (cs.drop j) = false := by
  intro cs
  induction cs with
  | nil =>
    intro pre post h
    rw [pySplitFirst] at h
    by_cases hp : sep.isPrefixOf ([] : List Char)
    · rw [if_pos hp] at h
      have hsep : sep = [] := by
        cases sep with
        | nil => rfl
        | cons a as => simp [List.isPrefixOf] at hp
      simp only [List.drop_nil, Option.some.injEq, Prod.mk.injEq] at h
      obtain ⟨hpre, hpost⟩ := h
      subst hpre
      subst hpost
      simp [hsep]
    · rw [if_neg hp] at h
      simp at h
  | cons c rest ih =>
    intro pre post h
    rw [pySplitFirst] at h
    cases hpb : sep.isPrefixOf (c :: rest) with
    | true =>
      rw [if_pos hpb] at h
      simp only [Option.some.injEq, Prod.mk.injEq] at h
      obtain ⟨hpre, hpost⟩ := h
      subst hpre
      subst hpost
      constructor
      · have hpref := List.isPrefixOf_iff_prefix.mp hpb
        obtain ⟨t, ht⟩ := hpref
        conv_lhs => rw [← ht]
        rw [List.nil_append, ← ht, List.drop_left]
      · simp
    | false =>
      rw [if_neg (by simp [hpb])] at h
      cases hr : pySplitFirst rest sep with
      | none =>
        rw [hr] at h
        simp at h
      | some pr =>
        obtain ⟨pre', post'⟩ := pr
        rw [hr] at h
        simp only [Option.some.injEq, Prod.mk.injEq] at h
        obtain ⟨hpre, hpost⟩ := h
        subst hpre
        subst hpost
        obtain ⟨ih1, ih2⟩ := ih hr
        constructor
        · simp only [List.cons_append]
          rw [ih1]
        · intro j hj
          cases j with
          | zero =>
            simpa using hpb
          | succ j' =>
            have hj' : j' < pre'.length := by
              simpa using hj
            simpa using ih2 j' hj'

theorem pySplitFirst_eq_none {sep : List Char} (hsep : sep ≠ []) :
    ∀ {cs : List Char}, pySplitFirst cs sep = none →
      ∀ j, sep.isPrefixOf (cs.drop j) = false := by
  intro cs
  induction cs with
  | nil =>
    intro _ j
    rw [List.drop_nil]
    cases sep with
    | nil => exact absurd rfl hsep
    | cons a as => rfl
  | cons c rest ih =>
    intro h j
    rw [pySplitFirst] at h
    cases hpb : sep.isPrefixOf (c :: rest) with
    | true =>
      rw [if_pos hpb] at h
      simp at h
    | false =>
      rw [if_neg (by simp [hpb])] at h
      cases hr : pySplitFirst rest sep with
      | some pr =>
        obtain ⟨pre', post'⟩ := pr
        rw [hr] at h
        simp at h
      | none =>
        cases j with
        | zero => simpa using hpb
        | succ j' => simpa using ih hr j'

theorem parseVttLoop_fst :
    ∀ (ls : List String) (st : Option (String × String × List String))
      (p : String × VttSegment), p ∈ parseVttLoop st ls → p.1 = p.2.text := by
  intro ls
  induction ls with
  | nil =>
    intro st p hp
    cases st with
    | none => simp [parseVttLoop] at hp
    | some s =>
      simp only [parseVttLoop, List.mem_singleton] at hp
      rw [hp]
      rfl
  | cons l ls ih =>
    intro st p hp
    cases st with
    | none =>
      rw [parseVttLoop] at hp
      cases hs : searchTimestampRange (pyStrip l).toList with
      | some g =>
        rw [hs] at hp
        exact ih _ p hp
      | none =>
        rw [hs] at hp
        exact ih _ p hp
    | some s =>
      rw [parseVttLoop] at hp
      by_cases hb : (pyStrip l).isEmpty
      · rw [if_pos hb] at hp
        rcases List.mem_cons.mp hp with h | h
        · rw [h]
          rfl
        · exact ih _ p h
      · rw [if_neg hb] at hp
        exact ih _ p hp

set_option maxRecDepth 8000 in
/-- C8: in the VTT parser, a cue's speaker is the text before the
*first* `": "` separator of the joined cue text and the segment text is
the remainder; with no such separator the speaker is `"Unknown"` and
the text the full joined cue text.  Parsing the spec's example yields
exactly the two expected segments and
`full_text = "Hello there\nHow are you"`. -/
theorem c8_vtt_speaker_rule :
    (∀ (raw s e : String) (pre post : List Char),
      pySplitFirst raw.toList ": ".toList = some (pre, post) →
        mkCueSegment raw s e
            = { speaker := String.mk pre, text := String.mk post,
                start_time := s, end_time := e }
          ∧ raw.toList = pre ++ (": ".toList ++ post)
          ∧ ∀ j < pre.length, ": ".toList.isPrefixOf (raw.toList.drop j) = false) ∧
    (∀ (raw s e : String), pySplitFirst raw.toList ": ".toList = none →
      mkCueSegment raw s e
          = { speaker := "Unknown", text := raw, start_time := s, end_time := e }
        ∧ ∀ j, ": ".toList.isPrefixOf (raw.toList.drop j) = false) ∧
    parse_vtt "WEBVTT\n\n00:00:00.000 --> 00:00:02.000\nAlice: Hello there\n\n00:00:02.000 --> 00:00:04.000\nHow are you\n"
      = ("Hello there\nHow are you",
         [{ speaker := "Alice", text := "Hello there",
            start_time := "00:00:00.000", end_time := "00:00:02.000" },
          { speaker := "Unknown", text := "How are you",
            start_time := "00:00:02.000", end_time := "00:00:04.000" }]) := by
  refine ⟨?_, ?_, by decide⟩
  · intro raw s e pre post h
    have hspec := pySplitFirst_eq_some h
    refine ⟨?_, hspec.1, hspec.2⟩
    unfold mkCueSegment
    rw [h]
  · intro raw s e h
    have hspec := pySplitFirst_eq_none (by decide) h
    refine ⟨?_, hspec⟩
    unfold mkCueSegment
    rw [h]

set_option maxRecDepth 8000 in
/-- Witness for C8 at a concrete cue text. -/
theorem c8_vtt_speaker_rule_witness :
    pySplitFirst ("Alice: Hello there").toList ": ".toList
        = some ("Alice".toList, "Hello there".toList) ∧
    mkCueSegment "Alice: Hello there" "00:00:00.000" "00:00:02.000"
        = { speaker := String.mk "Alice".toList, text := String.mk "Hello there".toList,
            start_time := "00:00:00.000", end_time := "00:00:02.000" } :=
  ⟨by decide,
    (c8_vtt_speaker_rule.1 "Alice: Hello there" "00:00:00.000" "00:00:02.000"
      "Alice".toList "Hello there".toList (by decide)).1⟩

/-- C9: for both normalizers — the Gong structured-transcript
normalizer and the Zoom VTT transcript row — `full_text` is the
newline-join of the segment texts in original order, and the stored
`word_count` equals the whitespace-token count of `full_text`. -/
theorem c9_word_count_roundtrip :
    (∀ raw_segments : List GongSegmentRaw,
      (normalize_transcript raw_segments).word_count
          = (pySplit (normalize_transcript raw_segments).full_text).length
        ∧ (normalize_transcript raw_segments).full_text
          = pyJoin "\n" ((normalize_transcript raw_segments).segments.map (·.text))) ∧
    (∀ vtt_content : String,
      (zoomTranscriptRow vtt_content).word_count
          = (pySplit (zoomTranscriptRow vtt_content).full_text).length
        ∧ (zoomTranscriptRow vtt_content).full_text
          = pyJoin "\n" ((zoomTranscriptRow vtt_content).segments.map (·.text))) := by
  refine ⟨fun rs => ⟨rfl, ?_⟩, fun v => ⟨rfl, ?_⟩⟩
  · simp only [normalize_transcript, List.map_map]
    congr 1
  · simp only [zoomTranscriptRow, parse_vtt, List.map_map]
    congr 1
    apply List.map_congr_left
    intro p hp
    exact parseVttLoop_fst _ none p hp

/-- Witness for C7 at a concrete input. -/
theorem c7_regenerate_versioning_witness :
    ([cr0].find? (fun r => r.id == 0) = some cr0) ∧
    (∀ r ∈ [cr0], r.id ≠ 1) ∧
    (1 ≤ maxVersion (matchingContent cr0.story_id cr0.content_type [cr0])) ∧
    regenerate 0 1 [cr0]
      = some ([cr0] ++
          [{ id := 1, story_id := cr0.story_id, content_type := cr0.content_type,
             version := maxVersion (matchingContent cr0.story_id cr0.content_type [cr0]) + 1,
             parent_id := some 0, status := "draft" }]) :=
  ⟨by decide, by decide, by decide,
    ((c7_regenerate_versioning [cr0] 0 1 cr0 (by decide) (by decide) (by decide)).1).1⟩

end CirrusOps
